import Mathlib

/-!
Shallow embedding of the openclaw policy-resolution and log-compaction core:

* `src/config/tool-result-guard.ts` — `lookupModelGuard`,
  `resolveToolResultGuardConfig`;
* the KV-cache-stability resolver (`resolveKvCacheStability`,
  `matchesContext`, `matchesStringList`, `matchesIdList`,
  `matchesSenderIdentity`, `resolveFieldSet`);
* `src/agents/pi-embedded-runner/tool-result-guard-persistence.ts` —
  `isToolResultEntry`, `persistToolResultCompaction`.

TypeScript `undefined` is modelled as `Option.none`; JS `Record` maps read
from parsed config are modelled as association lists looked up by first key
match (parsed JSON objects never hold duplicate keys); the declared
TypeScript unions are modelled as the corresponding Lean inductives.
-/

namespace Openclaw

/-- Embeds `ToolResultGuardMode`: the three guard modes of the config surface. -/
inductive ToolResultGuardMode where
  | default
  | disabled
  | persistent
deriving DecidableEq, Repr

/-- Embeds `ToolResultGuardConfig`: one guard block (`mode?`, `compactionTarget?`).
Both fields are optional in the TypeScript type (the test suite passes
`toolResultGuard: {}`). -/
structure ToolResultGuardConfig where
  mode : Option ToolResultGuardMode := none
  compactionTarget : Option ℚ := none
deriving DecidableEq, Repr

/-- Embeds `ResolvedToolResultGuardConfig`. -/
structure ResolvedToolResultGuardConfig where
  mode : ToolResultGuardMode
  compactionTarget : Option ℚ
deriving DecidableEq, Repr

/-- Embeds `KvCachePerTurnField` union type. -/
inductive KvCachePerTurnField where
  | has_reply_context
  | has_forwarded_context
  | has_thread_starter
  | was_mentioned
  | sender_id
deriving DecidableEq, Repr

/-- Embeds `KvCachePerChannelField` union type. -/
inductive KvCachePerChannelField where
  | channel
  | user_identity
  | reactions
  | inline_buttons
  | runtime_channel
  | inbound_meta
deriving DecidableEq, Repr

/-- Embeds `KvCacheChatType` union type (`"direct" | "group" | "channel"`). -/
inductive KvCacheChatType where
  | direct
  | group
  | channel
deriving DecidableEq, Repr

/-- The string carried by a `KvCacheChatType` value at runtime. -/
def KvCacheChatType.toStr : KvCacheChatType → String
  | .direct => "direct"
  | .group => "group"
  | .channel => "channel"

/-- A TypeScript `T | T[]` value (scalar or array). -/
inductive ScalarOrList (α : Type) where
  | scalar (a : α)
  | list (l : List α)
deriving DecidableEq, Repr

/-- Embeds `Array.isArray(x) ? x : [x]` — the normalisation both guards apply. -/
def ScalarOrList.toList : ScalarOrList α → List α
  | .scalar a => [a]
  | .list l => l

/-- An entry of an identity list (`Array<string | number>`). -/
inductive IdEntry where
  | str (s : String)
  | num (n : Int)
deriving DecidableEq, Repr

/-- Embeds `KvCacheStabilityContextMatch` — the `when` predicate of an override. -/
structure KvCacheStabilityContextMatch where
  chatType : Option (ScalarOrList KvCacheChatType) := none
  channel : Option (ScalarOrList String) := none
  sender : Option (List IdEntry) := none
  group : Option (List IdEntry) := none
  groupChannel : Option (List IdEntry) := none
  senderIsOwner : Option Bool := none
  isSubagent : Option Bool := none
deriving DecidableEq, Repr

/-- Embeds `KvCacheStabilityContext` — the runtime context snapshot. -/
structure KvCacheStabilityContext where
  chatType : Option KvCacheChatType := none
  channel : Option String := none
  senderId : Option String := none
  senderE164 : Option String := none
  senderUsername : Option String := none
  groupId : Option String := none
  groupChannel : Option String := none
  senderIsOwner : Option Bool := none
  isSubagent : Option Bool := none
deriving DecidableEq, Repr

/-- Embeds `boolean | T[]` — a field selector (absent selectors are `Option.none`
at the use sites). -/
inductive FieldSelector (α : Type) where
  | bool (b : Bool)
  | elems (l : List α)
deriving DecidableEq, Repr

/-- Embeds `KvCacheStabilityOverride`. -/
structure KvCacheStabilityOverride where
  when : KvCacheStabilityContextMatch
  perTurnFields : Option (FieldSelector KvCachePerTurnField) := none
  perChannelFields : Option (FieldSelector KvCachePerChannelField) := none
deriving DecidableEq, Repr

/-- Embeds `KvCacheStabilityConfig`. -/
structure KvCacheStabilityConfig where
  perTurnFields : Option (FieldSelector KvCachePerTurnField) := none
  perChannelFields : Option (FieldSelector KvCachePerChannelField) := none
  overrides : Option (List KvCacheStabilityOverride) := none
deriving DecidableEq, Repr

/-- Embeds `AgentModelEntryConfig`, restricted to the fields the resolvers read
(`toolResultGuard`, `kvCacheStability`); the remaining fields (`alias`,
`params`, `streaming`) are never consulted by the embedded functions. -/
structure AgentModelEntryConfig where
  toolResultGuard : Option ToolResultGuardConfig := none
  kvCacheStability : Option KvCacheStabilityConfig := none
deriving DecidableEq, Repr

/-- A `Record<string, AgentModelEntryConfig>` models map. -/
abbrev ModelsMap := List (String × AgentModelEntryConfig)

/-- Property access on a parsed-JSON record: first entry with the key. -/
def recordGet (m : ModelsMap) (k : String) : Option AgentModelEntryConfig :=
  (m.find? (fun p => p.1 == k)).map (·.2)

/-- One element of `agents.list` (the fields the resolvers read). -/
structure AgentEntry where
  id : String
  toolResultGuard : Option ToolResultGuardConfig := none
  kvCacheStability : Option KvCacheStabilityConfig := none
  models : Option ModelsMap := none
deriving DecidableEq, Repr

/-- Embeds `agents.defaults` (the fields the resolvers read). -/
structure AgentDefaults where
  toolResultGuard : Option ToolResultGuardConfig := none
  kvCacheStability : Option KvCacheStabilityConfig := none
  models : Option ModelsMap := none
deriving DecidableEq, Repr

/-- The `agents` section. -/
structure AgentsConfig where
  defaults : Option AgentDefaults := none
  list : Option (List AgentEntry) := none
deriving DecidableEq, Repr

/-- Embeds `OpenClawConfig`, restricted to the `agents` section. -/
structure OpenClawConfig where
  agents : Option AgentsConfig := none
deriving DecidableEq, Repr

/-- Embeds `modelKey.indexOf("/") > 0`: the first `/` of the key sits at a
positive index (there is a `/` and it is not the leading character). -/
def slashAtPositiveIndex (key : String) : Bool :=
  match key.toList with
  | [] => false
  | c :: rest => c != '/' && rest.contains '/'

/-- Embeds `modelKey.slice(0, modelKey.indexOf("/"))`: the text before the first
`/` of the key. -/
def providerPrefix (key : String) : String :=
  (key.toList.takeWhile (fun c => c != '/')).asString

/-- Embeds `lookupModelGuard(models, modelKey)` (tool-result-guard.ts lines
17–36): exact key first, then — when the first `/` of the key is at a
positive index — the `{provider}/*` entry of the same map. -/
def lookupModelGuard (models : Option ModelsMap) (modelKey : Option String) :
    Option ToolResultGuardConfig :=
  match models, modelKey with
  | some ms, some key =>
    match (recordGet ms key).bind (·.toolResultGuard) with
    | some exact => some exact
    | none =>
      if slashAtPositiveIndex key then
        (recordGet ms (providerPrefix key ++ "/*")).bind (·.toolResultGuard)
      else
        none
  | _, _ => none

/-- Embeds `agentId ? cfg.agents.list?.find((a) => a.id === agentId) : undefined`. -/
def findAgentEntry (agents : AgentsConfig) (agentId : Option String) :
    Option AgentEntry :=
  match agentId with
  | some aid => agents.list.bind (·.find? (fun a => a.id == aid))
  | none => none

/-- The four-level candidate list of `resolveToolResultGuardConfig`
(tool-result-guard.ts lines 61–70). -/
def guardCandidates (agents : AgentsConfig) (agentId modelKey : Option String) :
    List (Option ToolResultGuardConfig) :=
  let defaults := agents.defaults
  let agentEntry := findAgentEntry agents agentId
  [ lookupModelGuard (agentEntry.bind (·.models)) modelKey,
    agentEntry.bind (·.toolResultGuard),
    lookupModelGuard (defaults.bind (·.models)) modelKey,
    defaults.bind (·.toolResultGuard) ]

/-- Embeds `resolveToolResultGuardConfig` (tool-result-guard.ts lines 48–79):
`effective` is the first candidate that is defined at all;
`compactionTargetCandidate` is the first candidate whose
`compactionTarget` is defined; the result takes
`effective?.mode ?? "default"` and
`compactionTargetCandidate?.compactionTarget`. -/
def resolveToolResultGuardConfig (cfg : Option OpenClawConfig)
    (agentId modelKey : Option String) : ResolvedToolResultGuardConfig :=
  match cfg.bind (·.agents) with
  | none => ⟨ToolResultGuardMode.default, none⟩
  | some agents =>
    let candidates := guardCandidates agents agentId modelKey
    let effective := (candidates.find? (·.isSome)).bind id
    let compactionTargetCandidate :=
      (candidates.find? (fun c => (c.bind (·.compactionTarget)).isSome)).bind id
    ⟨(effective.bind (·.mode)).getD ToolResultGuardMode.default,
      compactionTargetCandidate.bind (·.compactionTarget)⟩

/-- Embeds `resolveToolResultGuardMode` (tool-result-guard.ts lines 86–92). -/
def resolveToolResultGuardMode (cfg : Option OpenClawConfig)
    (agentId modelKey : Option String) : ToolResultGuardMode :=
  (resolveToolResultGuardConfig cfg agentId modelKey).mode

/-! ### KV-cache-stability resolution (context matcher + policy engine) -/

/-- Embeds `ALL_PER_TURN_FIELDS`. -/
def ALL_PER_TURN_FIELDS : List KvCachePerTurnField :=
  [.has_reply_context, .has_forwarded_context, .has_thread_starter,
   .was_mentioned, .sender_id]

/-- Embeds `ALL_PER_CHANNEL_FIELDS`. -/
def ALL_PER_CHANNEL_FIELDS : List KvCachePerChannelField :=
  [.channel, .user_identity, .reactions, .inline_buttons,
   .runtime_channel, .inbound_meta]

/-- Embeds `ResolvedKvCacheStability` (two JS `Set`s, modelled as `Finset`s). -/
structure ResolvedKvCacheStability where
  perTurnFields : Finset KvCachePerTurnField
  perChannelFields : Finset KvCachePerChannelField
deriving DecidableEq

/-- Embeds `String.prototype.trim()`: drop leading and trailing whitespace. -/
def trimChars (l : List Char) : List Char :=
  ((l.dropWhile Char.isWhitespace).reverse.dropWhile Char.isWhitespace).reverse

/-- Embeds `String.prototype.trim()` on a string (`line.trim()` in the
rewriter's blank-line check). -/
def jsTrim (s : String) : String := (trimChars s.toList).asString

/-- Embeds `String.prototype.toLowerCase()` (per-character lowering; the
identifiers this code normalises are ASCII, where JS and `Char.toLower`
agree). -/
def lowerChars (l : List Char) : List Char := l.map Char.toLower

/-- Embeds `norm` applied to a string (`String(v).trim().toLowerCase()`; strings
stringify to themselves). -/
def normString (s : String) : String := (lowerChars (trimChars s.toList)).asString

/-- Embeds `norm` applied to a `string | number` identity entry; `String(v)` of a
number renders its decimal form. -/
def norm : IdEntry → String
  | .str s => normString s
  | .num n => normString (toString n)

/-- Embeds `matchesStringList(allowed, value)` (lines 189–195). -/
def matchesStringList (allowed : List String) (value : String) : Bool :=
  let v := normString value
  allowed.any (fun a => let n := normString a; n == "*" || n == v)

/-- Embeds `matchesIdList(allowed, value)` (lines 201–210): `!value` — i.e. an
absent or empty context value — always fails. -/
def matchesIdList (allowed : List IdEntry) (value : Option String) : Bool :=
  match value with
  | none => false
  | some s =>
    if s == "" then false
    else
      let v := normString s
      allowed.any (fun a => let n := norm a; n == "*" || n == v)

/-- Embeds `matchesSenderIdentity(allowed, ctx)` (lines 217–232): a wildcard entry
matches before the identity fields are even consulted;
`[senderId, senderE164, senderUsername].filter(Boolean)` keeps the
attributes that are present and non-empty. -/
def matchesSenderIdentity (allowed : List IdEntry)
    (ctx : KvCacheStabilityContext) : Bool :=
  if allowed.any (fun a => norm a == "*") then true
  else
    let candidates :=
      ([ctx.senderId, ctx.senderE164, ctx.senderUsername].filterMap id).filter
        (fun s => s != "")
    if candidates.isEmpty then false
    else candidates.any (fun c => matchesIdList allowed (some c))

/-- The `chatType` guard of `matchesContext` (lines 127–135): strict
`allowed.includes(ctx.chatType)` on the declared enum, after the
scalar-or-array normalisation; an absent context value fails. -/
def chatTypeGuard (whenChatType : Option (ScalarOrList KvCacheChatType))
    (ctxChatType : Option KvCacheChatType) : Bool :=
  match whenChatType with
  | none => true
  | some w =>
    match ctxChatType with
    | none => false
    | some ct => (w.toList).contains ct

/-- The `channel` guard of `matchesContext` (lines 138–146). -/
def channelGuard (whenChannel : Option (ScalarOrList String))
    (ctxChannel : Option String) : Bool :=
  match whenChannel with
  | none => true
  | some w =>
    match ctxChannel with
    | none => false
    | some ch => matchesStringList w.toList ch

/-- Embeds `matchesContext(when, ctx)` (lines 125–184): the conjunction of the
per-field guards; the early `return false`s make the whole predicate the
AND of the guards, and an omitted predicate field imposes no constraint.
The boolean guards use JS strict equality, under which an absent context
value differs from any concrete boolean. -/
def matchesContext (when : KvCacheStabilityContextMatch)
    (ctx : KvCacheStabilityContext) : Bool :=
  chatTypeGuard when.chatType ctx.chatType &&
  channelGuard when.channel ctx.channel &&
  (match when.sender with
   | none => true
   | some l => matchesSenderIdentity l ctx) &&
  (match when.group with
   | none => true
   | some l => matchesIdList l ctx.groupId) &&
  (match when.groupChannel with
   | none => true
   | some l => matchesIdList l ctx.groupChannel) &&
  (match when.senderIsOwner with
   | none => true
   | some b => ctx.senderIsOwner == some b) &&
  (match when.isSubagent with
   | none => true
   | some b => ctx.isSubagent == some b)

/-- Embeds `resolveFieldSet(value, allFields)` (lines 234–245). -/
def resolveFieldSet [DecidableEq α] (value : Option (FieldSelector α))
    (allFields : List α) : Finset α :=
  match value with
  | some (.bool true) => allFields.toFinset
  | some (.elems l) => l.toFinset
  | some (.bool false) => ∅
  | none => ∅

/-- The model-level candidate of `resolveKvCacheStability` (lines 71 and
75): `modelKey ? entry?.models?.[modelKey]?.kvCacheStability : undefined` —
an exact-key record access, with no wildcard fallback. -/
def kvModelCandidate (models : Option ModelsMap) (modelKey : Option String) :
    Option KvCacheStabilityConfig :=
  match modelKey with
  | some key => (models.bind (fun ms => recordGet ms key)).bind (·.kvCacheStability)
  | none => none

/-- The four-level candidate list of `resolveKvCacheStability`
(lines 69–78). -/
def kvCandidates (agents : AgentsConfig) (agentId modelKey : Option String) :
    List (Option KvCacheStabilityConfig) :=
  let defaults := agents.defaults
  let agentEntry := findAgentEntry agents agentId
  [ kvModelCandidate (agentEntry.bind (·.models)) modelKey,
    agentEntry.bind (·.kvCacheStability),
    kvModelCandidate (defaults.bind (·.models)) modelKey,
    defaults.bind (·.kvCacheStability) ]

/-- Embeds `candidates.find((c) => c !== undefined)` of `resolveKvCacheStability`
(line 81). -/
def effectiveKvConfig (agents : AgentsConfig) (agentId modelKey : Option String) :
    Option KvCacheStabilityConfig :=
  ((kvCandidates agents agentId modelKey).find? (·.isSome)).bind id

/-- The all-empty resolved policy (`empty` in the source). -/
def emptyResolvedKv : ResolvedKvCacheStability := ⟨∅, ∅⟩

/-- Embeds `resolveKvCacheStability(params)` (lines 49–102): first defined config
in the four-level hierarchy; then, when the config carries `overrides` and
a context was supplied, the first override whose `when` predicate matches
replaces both base selectors; finally both selectors pass through
`resolveFieldSet`. -/
def resolveKvCacheStability (cfg : Option OpenClawConfig)
    (agentId modelKey : Option String)
    (context : Option KvCacheStabilityContext) : ResolvedKvCacheStability :=
  match cfg.bind (·.agents) with
  | none => emptyResolvedKv
  | some agents =>
    match effectiveKvConfig agents agentId modelKey with
    | none => emptyResolvedKv
    | some effective =>
      let base := (effective.perTurnFields, effective.perChannelFields)
      let selectors :=
        match effective.overrides, context with
        | some ovs, some ctx =>
          match ovs.find? (fun (o : KvCacheStabilityOverride) => matchesContext o.when ctx) with
          | some m => (m.perTurnFields, m.perChannelFields)
          | none => base
        | _, _ => base
      ⟨resolveFieldSet selectors.1 ALL_PER_TURN_FIELDS,
       resolveFieldSet selectors.2 ALL_PER_CHANNEL_FIELDS⟩

/-! ### JSON values and the session-log rewriter

`persistToolResultCompaction` parses each log line with `JSON.parse` and
re-serialises updated entries with `JSON.stringify`.  JSON values are
modelled by `Json` below; object fields keep JS insertion-order semantics
(property write replaces in place or appends, `delete` removes,
`JSON.stringify` renders fields in order).  `JSON.parse` itself belongs to
the JS runtime, not to this repository, so the rewriter is parameterised
by a `parse` oracle; concrete instantiations list the parses of the
concrete lines they use. -/

/-- A JSON value (numbers restricted to integers, which covers every
numeric field the rewriter touches). -/
inductive Json where
  | null
  | bool (b : Bool)
  | num (n : Int)
  | str (s : String)
  | arr (elems : List Json)
  | obj (fields : List (String × Json))

/-- Property read on a parsed-JSON object: the field with the key (parsed
JSON objects hold each key at most once). -/
def getField : List (String × Json) → String → Option Json
  | [], _ => none
  | p :: rest, k => if p.1 == k then some p.2 else getField rest k

/-- Property write on a parsed-JSON object: replace the field in place
when present, append otherwise. -/
def setField : List (String × Json) → String → Json → List (String × Json)
  | [], k, v => [(k, v)]
  | p :: rest, k, v => if p.1 == k then (k, v) :: rest else p :: setField rest k v

/-- Embeds `delete obj[k]`. -/
def deleteField : List (String × Json) → String → List (String × Json)
  | [], _ => []
  | p :: rest, k => if p.1 == k then deleteField rest k else p :: deleteField rest k

/-- The escape `JSON.stringify` applies to one character of a string. -/
def escapeJsonChar (c : Char) : String :=
  if c = '"' then "\\\""
  else if c = '\\' then "\\\\"
  else if c = '\x08' then "\\b"
  else if c = '\t' then "\\t"
  else if c = '\n' then "\\n"
  else if c = '\x0c' then "\\f"
  else if c = '\r' then "\\r"
  else if c.toNat < 32 then
    "\\u00" ++ String.mk [Nat.digitChar (c.toNat / 16), Nat.digitChar (c.toNat % 16)]
  else String.mk [c]

/-- Embeds `JSON.stringify` of a string. -/
def escapeJsonString (s : String) : String :=
  "\"" ++ String.join (s.toList.map escapeJsonChar) ++ "\""

mutual

/-- Embeds `JSON.stringify` (compact form, as the rewriter calls it). -/
def Json.serialize : Json → String
  | .null => "null"
  | .bool true => "true"
  | .bool false => "false"
  | .num n => toString n
  | .str s => escapeJsonString s
  | .arr es => "[" ++ serializeElems es ++ "]"
  | .obj fs => "\x7b" ++ serializeFields fs ++ "\x7d"

/-- Comma-separated serialisation of array elements. -/
def serializeElems : List Json → String
  | [] => ""
  | [e] => e.serialize
  | e :: rest => e.serialize ++ "," ++ serializeElems rest

/-- Comma-separated serialisation of object fields. -/
def serializeFields : List (String × Json) → String
  | [] => ""
  | [(k, v)] => escapeJsonString k ++ ":" ++ v.serialize
  | (k, v) :: rest => escapeJsonString k ++ ":" ++ v.serialize ++ "," ++ serializeFields rest

end

/-- JS strict comparison `obj[k] === s` against a string literal: true
exactly when the field is present, is a string, and equals `s`. -/
def fieldIsStr (fields : List (String × Json)) (k s : String) : Bool :=
  match getField fields k with
  | some (Json.str t) => t == s
  | _ => false

/-- Embeds `isToolResultEntry(entry)` (persistence lines 17–23), phrased over the
fields of `entry.message`: the role/type markers are JS strict string
comparisons, which only a string value can satisfy.  (When `entry.message`
is absent or not an object the source returns `false`; the caller below
handles that case in its outer match.) -/
def isToolResultMsg (msg : List (String × Json)) : Bool :=
  fieldIsStr msg "role" "toolResult" ||
  fieldIsStr msg "role" "tool" ||
  fieldIsStr msg "type" "toolResult"

/-- The `toolCallId` guard of the rewrite condition (lines 79–80):
`entry.message?.toolCallId && compactedToolCallIds.has(...)`.  Only a
non-empty string is truthy *and* can be a member of a `Set<string>`. -/
def toolCallIdMatches (ids : List String) (msg : List (String × Json)) : Bool :=
  match getField msg "toolCallId" with
  | some (Json.str s) => s != "" && ids.contains s
  | _ => false

/-- Embeds `isAlreadyCompacted` (lines 87–93): the content is the placeholder
string itself, or a one-element array whose element is a non-null object
(`typeof === "object"`) with `text === placeholder`.  A one-element array
whose element is an array has `undefined` for `.text` and never matches;
so does any non-object element. -/
def isAlreadyCompacted (placeholder : String) (content : Option Json) : Bool :=
  match content with
  | some (Json.str s) => s == placeholder
  | some (Json.arr [Json.obj kvs]) => fieldIsStr kvs "text" placeholder
  | _ => false

/-- The in-place message rewrite (lines 95–103): replace `content` with
the placeholder keeping its shape (string, or absent, stays a string;
anything else becomes the one-element text-block list), then delete
`details`. -/
def compactMsg (placeholder : String) (msg : List (String × Json)) :
    List (String × Json) :=
  let withContent :=
    match getField msg "content" with
    | some (Json.str _) | none => setField msg "content" (Json.str placeholder)
    | some _ =>
      setField msg "content"
        (Json.arr [Json.obj [("type", Json.str "text"), ("text", Json.str placeholder)]])
  deleteField withContent "details"

/-- The rewrite condition of lines 76–81 for an entry already known to
carry an object-valued `message`. -/
def entryRewriteCondition (ids : List String) (topFields msg : List (String × Json)) :
    Bool :=
  fieldIsStr topFields "type" "message" &&
  isToolResultMsg msg &&
  toolCallIdMatches ids msg

/-- The per-entry step of the rewrite loop (lines 76–108): returns the
entry to re-serialise plus whether `updatedCount` was incremented.  A
non-object entry, or one whose `message` is not an object, can satisfy
neither the strict string comparisons nor the `toolCallId` truthiness
guard, so it passes through. -/
def processEntry (ids : List String) (placeholder : String) (e : Json) :
    Json × Bool :=
  match e with
  | .obj topFields =>
    match getField topFields "message" with
    | some (.obj msg) =>
      if entryRewriteCondition ids topFields msg then
        if isAlreadyCompacted placeholder (getField msg "content") then
          (e, false)
        else
          (.obj (setField topFields "message" (.obj (compactMsg placeholder msg))), true)
      else (e, false)
    | _ => (e, false)
  | _ => (e, false)

/-- The line loop of `persistToolResultCompaction` (lines 60–109): blank
lines and lines `JSON.parse` rejects pass through unchanged; parsed
entries are processed and re-serialised with `JSON.stringify`.  Returns
the output lines and `updatedCount` (the source's `modified` flag is set
exactly when `updatedCount` is incremented, i.e. iff the count is
positive). -/
def processLines (parse : String → Option Json) (ids : List String)
    (placeholder : String) : List String → List String × Nat
  | [] => ([], 0)
  | line :: rest =>
    let this :=
      if jsTrim line == "" then ([line], 0)
      else
        match parse line with
        | none => ([line], 0)
        | some e =>
          let step := processEntry ids placeholder e
          ([step.1.serialize], if step.2 then 1 else 0)
    let restOut := processLines parse ids placeholder rest
    (this.1 ++ restOut.1, this.2 + restOut.2)

/-! ### Filesystem model for the atomic write

A file is its list of lines (the source reads the whole file and splits on
`/\r?\n/`; it writes back `outputLines.join("\n")`) together with its
permission bits.  The filesystem maps paths to files.  I/O failures of the
node `fs` primitives are injected through a `FsFaults` record; the
`.catch`-swallowed `stat` and the best-effort `unlink` have their own
flags so that their failures can be shown to be non-fatal. -/

/-- A file: its lines and its permission bits (`stat.mode`). -/
structure FileState where
  lines : List String
  mode : Nat
deriving DecidableEq, Repr

/-- The filesystem: a path-indexed partial map of files. -/
def Fs : Type := String → Option FileState

/-- Create or overwrite a file. -/
def Fs.setFile (fs : Fs) (p : String) (f : FileState) : Fs :=
  fun q => if q == p then some f else fs q

/-- Remove a file. -/
def Fs.removeFile (fs : Fs) (p : String) : Fs :=
  fun q => if q == p then none else fs q

/-- Injected failures of the node `fs` primitives used by the rewriter. -/
structure FsFaults where
  readFails : Bool := false
  statFails : Bool := false
  writeFails : Bool := false
  chmodFails : Bool := false
  renameFails : Bool := false
  unlinkFails : Bool := false
deriving DecidableEq, Repr

/-- No injected failures. -/
def noFaults : FsFaults := {}

/-- Result record of `persistToolResultCompaction`. -/
structure PersistResult where
  persisted : Bool
  updatedCount : Nat
deriving DecidableEq, Repr

/-- The temporary path
`` `${sessionFile}.guard-persist-${process.pid}-${Date.now()}.tmp` ``; the
pid/timestamp infix is a parameter. -/
def tmpPathOf (sessionFile tmpInfix : String) : String :=
  sessionFile ++ ".guard-persist-" ++ tmpInfix ++ ".tmp"

/-- Permission bits `0o644` given to a freshly written temporary file
before the `chmod` copies the original's bits onto it. -/
def freshFileMode : Nat := 420

/-- The warning emitted on a read failure (line 52). -/
def readWarning : String :=
  "tool result guard persistence: failed to read session file"

/-- The warning emitted on a write/rename failure (line 131). -/
def writeWarning : String :=
  "tool result guard persistence: failed to write session file"

/-- The `try` block of lines 117–123: `stat` (errors swallowed to `null`),
`writeFile` to the temporary path, `chmod` when `stat` succeeded, `rename`
over the original.  On success the final filesystem is returned; on a
thrown error the filesystem at the throw point is returned so the `catch`
block can run against it. -/
def atomicWritePhase (faults : FsFaults) (fs0 : Fs)
    (sessionFile tmpPath : String) (outputLines : List String) :
    Except Fs Fs :=
  let statMode : Option Nat :=
    if faults.statFails then none else (fs0 sessionFile).map (·.mode)
  if faults.writeFails then .error fs0
  else
    let fs1 := fs0.setFile tmpPath ⟨outputLines, freshFileMode⟩
    match statMode with
    | some m =>
      if faults.chmodFails then .error fs1
      else
        let fs2 := fs1.setFile tmpPath ⟨outputLines, m⟩
        if faults.renameFails then .error fs2
        else .ok ((fs2.removeFile tmpPath).setFile sessionFile ⟨outputLines, m⟩)
    | none =>
      if faults.renameFails then .error fs1
      else .ok ((fs1.removeFile tmpPath).setFile sessionFile ⟨outputLines, freshFileMode⟩)

/-- Embeds `persistToolResultCompaction(params)` (persistence lines 34–136),
returning the result record, the final filesystem and the warnings pushed
to the caller-supplied sink.  The body catches every I/O failure, so the
modelled function is total: it always returns a `PersistResult` instead of
propagating an exception. -/
def persistToolResultCompaction (parse : String → Option Json)
    (faults : FsFaults) (fs0 : Fs) (sessionFile tmpInfix : String)
    (compactedToolCallIds : List String) (placeholder : String) :
    PersistResult × Fs × List String :=
  if compactedToolCallIds.isEmpty then (⟨false, 0⟩, fs0, [])
  else
    match (if faults.readFails then none else fs0 sessionFile) with
    | none => (⟨false, 0⟩, fs0, [readWarning])
    | some file =>
      let step := processLines parse compactedToolCallIds placeholder file.lines
      if step.2 == 0 then (⟨false, 0⟩, fs0, [])
      else
        let tmpPath := tmpPathOf sessionFile tmpInfix
        match atomicWritePhase faults fs0 sessionFile tmpPath step.1 with
        | .ok fs1 => (⟨true, step.2⟩, fs1, [])
        | .error fsAtFailure =>
          let fsCleaned :=
            if faults.unlinkFails then fsAtFailure
            else fsAtFailure.removeFile tmpPath
          (⟨false, 0⟩, fsCleaned, [writeWarning])

/-! ### Spec-side definitions used to settle the hierarchy claims -/

/-- The first defined element of a candidate list (spec §4.2: "return the
first candidate that is not `undefined`"). -/
def firstSome : List (Option α) → Option α
  | [] => none
  | some a :: _ => some a
  | none :: rest => firstSome rest

/-- Modelled from the spec (§4.2/§4.4 and claim C1's wording): a guard
resolver in which *each* field independently takes its value from the
first hierarchy level whose guard block defines that particular field. -/
def resolveGuardFieldwiseSpec (cfg : Option OpenClawConfig)
    (agentId modelKey : Option String) : ResolvedToolResultGuardConfig :=
  match cfg.bind (·.agents) with
  | none => ⟨ToolResultGuardMode.default, none⟩
  | some agents =>
    let candidates := guardCandidates agents agentId modelKey
    ⟨(firstSome (candidates.map (fun c => c.bind (·.mode)))).getD ToolResultGuardMode.default,
      firstSome (candidates.map (fun c => c.bind (·.compactionTarget)))⟩

/-- Modelled from the spec (claim C2's wording): the kv-cache model-keyed
lookup the spec claims — the same exact-then-provider-wildcard algorithm
as `lookupModelGuard`, with the spec's "exactly one `/` separator"
condition, reading the `kvCacheStability` field. -/
def kvLookupClaimedSpec (models : Option ModelsMap) (modelKey : Option String) :
    Option KvCacheStabilityConfig :=
  match models, modelKey with
  | some ms, some key =>
    match (recordGet ms key).bind (·.kvCacheStability) with
    | some exact => some exact
    | none =>
      if key.toList.count '/' == 1 then
        (recordGet ms (providerPrefix key ++ "/*")).bind (·.kvCacheStability)
      else
        none
  | _, _ => none

/-- The lemma: `find? isSome` followed by `bind id` is `firstSome`. -/
theorem find_isSome_eq_firstSome (l : List (Option α)) :
    (l.find? (·.isSome)).bind id = firstSome l := by
  induction l with
  | nil => rfl
  | cons c rest ih =>
    cases c with
    | some a => simp [List.find?, firstSome]
    | none => simpa [List.find?, firstSome] using ih

/-- The per-field candidate search of the source equals `firstSome` over
the field-projected candidate list. -/
theorem find_field_eq_firstSome_map (l : List (Option α)) (f : α → Option β) :
    ((l.find? (fun c => (c.bind f).isSome)).bind id).bind f =
      firstSome (l.map (fun c => c.bind f)) := by
  induction l with
  | nil => rfl
  | cons c rest ih =>
    rcases h : c.bind f with _ | b
    · simpa [List.find?, h, firstSome] using ih
    · simp [List.find?, h, firstSome]

/-! ### C8 — exact vs provider-wildcard guard lookup -/

/-- The models map of the spec's worked example. -/
def modelsC8 : ModelsMap :=
  [("ollama/*", { toolResultGuard := some { mode := some .persistent } }),
   ("ollama/special", { toolResultGuard := some { mode := some .disabled } })]

/-- The `agents.defaults` block of the spec's worked example. -/
def defaultsC8 : AgentDefaults :=
  { toolResultGuard := some { mode := some .default }, models := some modelsC8 }

/-- The configuration of the spec's worked example: a global default mode
plus the two per-model entries. -/
def cfgC8 : OpenClawConfig :=
  { agents := some { defaults := some defaultsC8 } }

/-- C8: with global default mode `"default"`, per-model `"ollama/*" ->
persistent` and exact `"ollama/special" -> disabled`, resolving
`"ollama/small"` yields `"persistent"`, `"ollama/special"` yields
`"disabled"`, and `"openai/gpt-4"` yields `"default"`; in general an
exact model-key guard entry outranks any wildcard at the same level, and
when neither the exact key nor the key's own `{provider}/*` entry carries
a guard the lookup yields nothing — a different provider's wildcard never
matches. -/
theorem guard_wildcard_example_resolution :
    (resolveToolResultGuardMode (some cfgC8) none (some "ollama/small") =
        ToolResultGuardMode.persistent
      ∧ resolveToolResultGuardMode (some cfgC8) none (some "ollama/special") =
        ToolResultGuardMode.disabled
      ∧ resolveToolResultGuardMode (some cfgC8) none (some "openai/gpt-4") =
        ToolResultGuardMode.default)
    ∧ (∀ (ms : ModelsMap) (key : String) (g : ToolResultGuardConfig),
        (recordGet ms key).bind (·.toolResultGuard) = some g →
        lookupModelGuard (some ms) (some key) = some g)
    ∧ (∀ (ms : ModelsMap) (key : String),
        (recordGet ms key).bind (·.toolResultGuard) = none →
        (recordGet ms (providerPrefix key ++ "/*")).bind (·.toolResultGuard) = none →
        lookupModelGuard (some ms) (some key) = none) := by
  refine ⟨⟨by decide, by decide, by decide⟩, ?_, ?_⟩
  · intro ms key g h
    simp [lookupModelGuard, h]
  · intro ms key h1 h2
    simp [lookupModelGuard, h1, h2]

/-- Witness for C8's universal parts at concrete inputs. -/
theorem guard_wildcard_example_resolution_witness :
    lookupModelGuard (some modelsC8) (some "openai/gpt-4") = none ∧
    lookupModelGuard (some modelsC8) (some "ollama/special") =
      some { mode := some .disabled } :=
  ⟨guard_wildcard_example_resolution.2.2 modelsC8 "openai/gpt-4"
      (by decide) (by decide),
   guard_wildcard_example_resolution.2.1 modelsC8 "ollama/special"
      { mode := some .disabled } (by decide)⟩

/-! ### C1 — per-field independence of `mode` and `compactionTarget` -/

/-- An agent entry whose guard block sets only `compactionTarget`. -/
def agentEntryC1 : AgentEntry :=
  { id := "a", toolResultGuard := some { compactionTarget := some (1/2 : ℚ) } }

/-- The `agents` section with global `mode = "persistent"` and an
agent-level guard block that defines only `compactionTarget`. -/
def agentsC1 : AgentsConfig :=
  { defaults := some { toolResultGuard := some { mode := some .persistent } },
    list := some [agentEntryC1] }

/-- A configuration whose global defaults define `mode = "persistent"`
while the (more specific) agent-level guard block defines only
`compactionTarget`. -/
def cfgC1 : OpenClawConfig := { agents := some agentsC1 }

/-- C1 counterexample: on `cfgC1` the first hierarchy level that defines
`mode` is the global defaults (`"persistent"`), yet the source resolves
`mode = "default"`, because `mode` is read off the first guard block that
is defined *at all* (the agent block, which leaves `mode` unset) rather
than the first block that defines `mode`.  The claimed fieldwise resolver
therefore disagrees with the source on this input. -/
theorem guard_mode_not_fieldwise_counterexample :
    resolveToolResultGuardConfig (some cfgC1) (some "a") none =
      ⟨ToolResultGuardMode.default, some (1/2 : ℚ)⟩
    ∧ resolveGuardFieldwiseSpec (some cfgC1) (some "a") none =
      ⟨ToolResultGuardMode.persistent, some (1/2 : ℚ)⟩
    ∧ resolveToolResultGuardConfig (some cfgC1) (some "a") none ≠
      resolveGuardFieldwiseSpec (some cfgC1) (some "a") none := by
  have h1 : resolveToolResultGuardConfig (some cfgC1) (some "a") none =
      ⟨ToolResultGuardMode.default, some (1/2 : ℚ)⟩ := rfl
  have h2 : resolveGuardFieldwiseSpec (some cfgC1) (some "a") none =
      ⟨ToolResultGuardMode.persistent, some (1/2 : ℚ)⟩ := rfl
  refine ⟨h1, h2, ?_⟩
  rw [h1, h2]
  intro h
  exact absurd (congrArg ResolvedToolResultGuardConfig.mode h) (by decide)

/-- C1 amended: `compactionTarget` resolves per-field — the first
hierarchy level whose guard block defines it supplies it (absent when
none does) — while `mode` is supplied by the first hierarchy level whose
guard block is present at all, falling back to `"default"` when that
block leaves `mode` unset or when no level has a guard block (and also
when the config has no `agents` section). -/
theorem guard_resolution_per_field_amended :
    (∀ (cfg : Option OpenClawConfig) (agentId modelKey : Option String)
        (agents : AgentsConfig), cfg.bind (·.agents) = some agents →
      (resolveToolResultGuardConfig cfg agentId modelKey).compactionTarget =
        firstSome ((guardCandidates agents agentId modelKey).map
          (fun c => c.bind (·.compactionTarget)))
      ∧ (resolveToolResultGuardConfig cfg agentId modelKey).mode =
        ((firstSome (guardCandidates agents agentId modelKey)).bind
          (·.mode)).getD ToolResultGuardMode.default)
    ∧ (∀ (cfg : Option OpenClawConfig) (agentId modelKey : Option String),
        cfg.bind (·.agents) = none →
        resolveToolResultGuardConfig cfg agentId modelKey =
          ⟨ToolResultGuardMode.default, none⟩) := by
  constructor
  · intro cfg agentId modelKey agents h
    constructor
    · simp only [resolveToolResultGuardConfig, h]
      exact find_field_eq_firstSome_map _ _
    · simp only [resolveToolResultGuardConfig, h]
      rw [find_isSome_eq_firstSome]
  · intro cfg agentId modelKey h
    simp [resolveToolResultGuardConfig, h]

/-- Witness for C1's amended theorem at the concrete `cfgC1`. -/
theorem guard_resolution_per_field_amended_witness :
    (resolveToolResultGuardConfig (some cfgC1) (some "a") none).compactionTarget =
      firstSome ((guardCandidates agentsC1 (some "a") none).map
        (fun c => c.bind (·.compactionTarget))) :=
  (guard_resolution_per_field_amended.1 (some cfgC1) (some "a") none agentsC1 rfl).1

/-! ### C2 — the kv-cache model lookup has no provider wildcard -/

/-- A models map holding only a provider wildcard entry carrying both a
guard block and a kv-cache-stability block. -/
def modelsC2 : ModelsMap :=
  [("ollama/*",
    { toolResultGuard := some { mode := some .persistent },
      kvCacheStability := some { perTurnFields := some (.bool true) } })]

/-- Configuration exposing `modelsC2` as the global default models map. -/
def cfgC2 : OpenClawConfig :=
  { agents := some { defaults := some { models := some modelsC2 } } }

/-- C2 counterexample: on the same configuration and model key
`"ollama/llama"`, the guard lookup honours the `"ollama/*"` wildcard
(mode resolves to `"persistent"`), but the kv-cache model lookup does
not — `resolveKvCacheStability` misses the wildcard entry entirely and
resolves the all-empty policy, disagreeing with the claimed
exact-then-wildcard lookup.  Moreover the guard fallback is keyed on the
first `/` being at a positive index, not on the key containing exactly
one `/`: the two-separator key `"a/b/c"` still falls back to `"a/*"`. -/
theorem kv_lookup_no_wildcard_counterexample :
    kvModelCandidate (some modelsC2) (some "ollama/llama") = none
    ∧ kvLookupClaimedSpec (some modelsC2) (some "ollama/llama") =
      some { perTurnFields := some (.bool true) }
    ∧ kvModelCandidate (some modelsC2) (some "ollama/llama") ≠
      kvLookupClaimedSpec (some modelsC2) (some "ollama/llama")
    ∧ resolveKvCacheStability (some cfgC2) none (some "ollama/llama") none =
      emptyResolvedKv
    ∧ resolveToolResultGuardMode (some cfgC2) none (some "ollama/llama") =
      ToolResultGuardMode.persistent
    ∧ lookupModelGuard
        (some [("a/*", { toolResultGuard := some { mode := some .disabled } })])
        (some "a/b/c") = some { mode := some .disabled } := by
  refine ⟨by decide, by decide, by decide, by decide, by decide, by decide⟩

/-- C2 amended: the guard lookup tries the exact model key first (an exact
guard entry always wins), and when the exact key carries no guard it falls
back to `{text-before-first-slash}/*` exactly when the key's first `/` is
at a positive index; the kv-cache-stability lookup instead uses exact
model-key matching only — when the key has no exact entry, the kv
resolution of a defaults-level models map yields the disabled (empty)
policy no matter which wildcard entries the map holds. -/
theorem model_lookup_algorithms_amended :
    (∀ (ms : ModelsMap) (key : String) (g : ToolResultGuardConfig),
      (recordGet ms key).bind (·.toolResultGuard) = some g →
      lookupModelGuard (some ms) (some key) = some g)
    ∧ (∀ (ms : ModelsMap) (key : String),
      (recordGet ms key).bind (·.toolResultGuard) = none →
      lookupModelGuard (some ms) (some key) =
        (if slashAtPositiveIndex key then
          (recordGet ms (providerPrefix key ++ "/*")).bind (·.toolResultGuard)
        else none))
    ∧ (∀ (ms : ModelsMap) (key : String)
        (agentId : Option String) (ctx : Option KvCacheStabilityContext),
      recordGet ms key = none →
      resolveKvCacheStability
        (some { agents := some { defaults := some { models := some ms } } })
        agentId (some key) ctx = emptyResolvedKv) := by
  refine ⟨?_, ?_, ?_⟩
  · intro ms key g h
    simp [lookupModelGuard, h]
  · intro ms key h
    simp [lookupModelGuard, h]
  · intro ms key agentId ctx h
    cases agentId with
    | none =>
      simp [resolveKvCacheStability, effectiveKvConfig, kvCandidates,
        kvModelCandidate, findAgentEntry, h]
    | some aid =>
      simp [resolveKvCacheStability, effectiveKvConfig, kvCandidates,
        kvModelCandidate, findAgentEntry, h]

/-- Witness for C2's amended theorem at concrete inputs. -/
theorem model_lookup_algorithms_amended_witness :
    resolveKvCacheStability
      (some { agents := some { defaults := some { models := some modelsC2 } } })
      none (some "ollama/llama") none = emptyResolvedKv :=
  model_lookup_algorithms_amended.2.2 modelsC2 "ollama/llama" none none (by decide)

/-! ### Helper lemmas on `List.any` -/

/-- The lemma: `any` distributes over a pointwise disjunction. -/
theorem any_or_split (l : List α) (p q : α → Bool) :
    (l.any fun a => p a || q a) = (l.any p || l.any q) := by
  induction l with
  | nil => rfl
  | cons a rest ih =>
    simp only [List.any_cons, ih]
    cases p a <;> cases q a <;> cases rest.any p <;> cases rest.any q <;> rfl

/-- The lemma: `any` only depends on the predicate's values on the list. -/
theorem any_congr_on (l : List α) (p q : α → Bool) (h : ∀ a ∈ l, p a = q a) :
    l.any p = l.any q := by
  induction l with
  | nil => rfl
  | cons a rest ih =>
    rw [List.any_cons, List.any_cons, h a (by simp),
      ih (fun x hx => h x (by simp [hx]))]

/-- Filtering out elements on which the predicate is false anyway does not
change `any`. -/
theorem any_filter_of_false (l : List String) (p : String → Bool)
    (h : p "" = false) :
    ((l.filter fun s => s != "").any p) = l.any p := by
  induction l with
  | nil => rfl
  | cons a rest ih =>
    by_cases ha : a = ""
    · subst ha
      simpa [List.filter, h] using ih
    · have : (a != "") = true := by simpa using ha
      simp [List.filter, this, List.any_cons, ih]

/-! ### C3 — chatType/channel string-enum predicate matching -/

/-- Modelled from the spec (§4.3, claim C3) for the enum field `chatType`:
the context value is required to be present and must equal some predicate
entry after normalisation (trim, lower-case, stringify), or some predicate
entry must be the wildcard token. -/
def specEnumFieldMatch (entries : List KvCacheChatType)
    (ctxVal : Option KvCacheChatType) : Bool :=
  match ctxVal with
  | none => false
  | some v =>
    entries.any (fun e => normString e.toStr == normString v.toStr) ||
    entries.any (fun e => normString e.toStr == "*")

/-- Modelled from the spec (§4.3, claim C3) for the string field
`channel`. -/
def specStringFieldMatch (entries : List String) (ctxVal : Option String) :
    Bool :=
  match ctxVal with
  | none => false
  | some v =>
    entries.any (fun e => normString e == normString v) ||
    entries.any (fun e => normString e == "*")

/-- On the declared chat-type enum, strict equality coincides with
equality after normalisation. -/
theorem chatType_beq_iff_norm (e v : KvCacheChatType) :
    (v == e) = (normString e.toStr == normString v.toStr) := by
  cases e <;> cases v <;> decide

/-- No chat-type enum value normalises to the wildcard token. -/
theorem chatType_norm_ne_wildcard (e : KvCacheChatType) :
    (normString e.toStr == "*") = false := by
  cases e <;> decide

/-- C3: the `chatType` and `channel` guards of `matchesContext` accept a
scalar or a list and succeed exactly when the context's value equals some
predicate entry after case-insensitive normalisation or some predicate
entry normalises to the wildcard token `*`; a context that lacks the
attribute makes the whole predicate fail. -/
theorem string_enum_field_matching :
    (∀ (w : ScalarOrList KvCacheChatType) (c : Option KvCacheChatType),
      chatTypeGuard (some w) c = specEnumFieldMatch w.toList c)
    ∧ (∀ (w : ScalarOrList String) (c : Option String),
      channelGuard (some w) c = specStringFieldMatch w.toList c)
    ∧ (∀ (when : KvCacheStabilityContextMatch) (ctx : KvCacheStabilityContext),
      when.chatType.isSome → ctx.chatType = none → matchesContext when ctx = false)
    ∧ (∀ (when : KvCacheStabilityContextMatch) (ctx : KvCacheStabilityContext),
      when.channel.isSome → ctx.channel = none → matchesContext when ctx = false) := by
  refine ⟨?_, ?_, ?_, ?_⟩
  · intro w c
    cases c with
    | none => cases w <;> rfl
    | some v =>
      show (w.toList).contains v =
        ((w.toList.any fun e => normString e.toStr == normString v.toStr) ||
          w.toList.any fun e => normString e.toStr == "*")
      rw [← any_or_split]
      induction w.toList with
      | nil => rfl
      | cons e rest ih =>
        rw [List.contains_cons, List.any_cons, ih, chatType_beq_iff_norm,
          chatType_norm_ne_wildcard, Bool.or_false]
  · intro w c
    cases c with
    | none => cases w <;> rfl
    | some v =>
      show (w.toList.any fun a => normString a == "*" || normString a == normString v) =
        ((w.toList.any fun e => normString e == normString v) ||
          w.toList.any fun e => normString e == "*")
      rw [any_or_split, Bool.or_comm]
  · intro when ctx hw hc
    obtain ⟨w, hw⟩ := Option.isSome_iff_exists.mp hw
    simp [matchesContext, chatTypeGuard, hw, hc]
  · intro when ctx hw hc
    obtain ⟨w, hw⟩ := Option.isSome_iff_exists.mp hw
    simp [matchesContext, channelGuard, hw, hc]

/-- Witness for C3 at concrete inputs: a list predicate on `chatType` and
a wildcard-bearing channel list. -/
theorem string_enum_field_matching_witness :
    chatTypeGuard (some (.list [.group, .channel])) (some .group) =
      specEnumFieldMatch [.group, .channel] (some .group)
    ∧ channelGuard (some (.scalar " Telegram ")) (some "telegram") =
      specStringFieldMatch [" Telegram "] (some "telegram")
    ∧ matchesContext { chatType := some (.scalar .group) } {} = false :=
  ⟨string_enum_field_matching.1 (.list [.group, .channel]) (some .group),
   string_enum_field_matching.2.1 (.scalar " Telegram ") (some "telegram"),
   string_enum_field_matching.2.2.1 { chatType := some (.scalar .group) } {}
     (by decide) rfl⟩

/-! ### C6 — first-matching-override replacement semantics -/

/-- The lemma: `find?` returns the marked element when everything before it fails the
predicate and it satisfies it, regardless of what follows. -/
theorem find_first_match (p : α → Bool) (pre : List α) (m : α) (post : List α)
    (hpre : ∀ o ∈ pre, p o = false) (hm : p m = true) :
    (pre ++ m :: post).find? p = some m := by
  induction pre with
  | nil => simp [List.find?, hm]
  | cons a rest ih =>
    have ha : p a = false := hpre a (by simp)
    simp only [List.cons_append, List.find?]
    rw [ha]
    exact ih (fun o ho => hpre o (by simp [ho]))

/-- C6: when an effective config carrying overrides is found and a context
is supplied, the first override in authored order whose predicate matches
replaces *both* selectors with that override's own (possibly absent)
values — no merging with the base and no influence from later overrides;
an all-omitted predicate matches any context; and when no override
matches, the base selectors are resolved. -/
theorem override_first_match_replaces :
    (∀ (cfg : Option OpenClawConfig) (agentId modelKey : Option String)
        (ctx : KvCacheStabilityContext) (agents : AgentsConfig)
        (eff : KvCacheStabilityConfig) (pre post : List KvCacheStabilityOverride)
        (m : KvCacheStabilityOverride),
      cfg.bind (·.agents) = some agents →
      effectiveKvConfig agents agentId modelKey = some eff →
      eff.overrides = some (pre ++ m :: post) →
      (∀ o ∈ pre, matchesContext o.when ctx = false) →
      matchesContext m.when ctx = true →
      resolveKvCacheStability cfg agentId modelKey (some ctx) =
        ⟨resolveFieldSet m.perTurnFields ALL_PER_TURN_FIELDS,
         resolveFieldSet m.perChannelFields ALL_PER_CHANNEL_FIELDS⟩)
    ∧ (∀ (cfg : Option OpenClawConfig) (agentId modelKey : Option String)
        (ctx : KvCacheStabilityContext) (agents : AgentsConfig)
        (eff : KvCacheStabilityConfig) (ovs : List KvCacheStabilityOverride),
      cfg.bind (·.agents) = some agents →
      effectiveKvConfig agents agentId modelKey = some eff →
      eff.overrides = some ovs →
      (∀ o ∈ ovs, matchesContext o.when ctx = false) →
      resolveKvCacheStability cfg agentId modelKey (some ctx) =
        ⟨resolveFieldSet eff.perTurnFields ALL_PER_TURN_FIELDS,
         resolveFieldSet eff.perChannelFields ALL_PER_CHANNEL_FIELDS⟩)
    ∧ (∀ ctx : KvCacheStabilityContext, matchesContext {} ctx = true) := by
  refine ⟨?_, ?_, ?_⟩
  · intro cfg agentId modelKey ctx agents eff pre post m hcfg heff hov hpre hm
    have hfind : (pre ++ m :: post).find?
        (fun (o : KvCacheStabilityOverride) => matchesContext o.when ctx) = some m :=
      find_first_match _ pre m post hpre hm
    simp [resolveKvCacheStability, hcfg, heff, hov, hfind]
  · intro cfg agentId modelKey ctx agents eff ovs hcfg heff hov hnone
    have hfind : ovs.find?
        (fun (o : KvCacheStabilityOverride) => matchesContext o.when ctx) = none :=
      List.find?_eq_none.mpr (fun o ho => by simp [hnone o ho])
    simp [resolveKvCacheStability, hcfg, heff, hov, hfind]
  · intro ctx
    rfl

/-- The effective config used by the C6 witness: base selectors enable
everything, a first non-matching override, then a matching override that
turns the per-turn set off and leaves `perChannelFields` unset. -/
def effC6 : KvCacheStabilityConfig :=
  { perTurnFields := some (.bool true),
    perChannelFields := some (.bool true),
    overrides := some
      [{ when := { chatType := some (.scalar .direct) },
         perTurnFields := some (.bool true),
         perChannelFields := some (.bool true) },
       { when := { chatType := some (.scalar .group) },
         perTurnFields := some (.bool false) }] }

/-- Configuration exposing `effC6` at the global defaults level. -/
def cfgC6 : OpenClawConfig :=
  { agents := some { defaults := some { kvCacheStability := some effC6 } } }

/-- Witness for C6 at `cfgC6` with a group-chat context: the second
override wins, both selectors are replaced (the unset `perChannelFields`
of the override resolves to the empty set — no merge with the base). -/
theorem override_first_match_replaces_witness :
    resolveKvCacheStability (some cfgC6) none none
      (some { chatType := some .group }) = ⟨∅, ∅⟩ ∧
    matchesContext {} { chatType := some .group } = true :=
  ⟨override_first_match_replaces.1 (some cfgC6) none none
      { chatType := some .group } _ effC6
      [{ when := { chatType := some (.scalar .direct) },
         perTurnFields := some (.bool true),
         perChannelFields := some (.bool true) }]
      []
      { when := { chatType := some (.scalar .group) },
        perTurnFields := some (.bool false) }
      rfl rfl rfl (by decide) (by decide),
   override_first_match_replaces.2.2 { chatType := some .group }⟩

/-! ### C7 — identity-list wildcards and sender identity matching -/

/-- Modelled from the spec (§4.3, claim C7): the sender predicate,
phrased directly over the three identity attributes — a wildcard entry
matches unconditionally; otherwise some present, non-empty attribute must
equal some listed entry after case-insensitive normalisation. -/
def specSenderMatch (allowed : List IdEntry) (ctx : KvCacheStabilityContext) :
    Bool :=
  if allowed.any (fun a => norm a == "*") then true
  else
    ([ctx.senderId, ctx.senderE164, ctx.senderUsername].filterMap id).any
      (fun c => c != "" && allowed.any (fun a => norm a == normString c))

/-- C7: in identity lists a wildcard entry matches any present, non-empty
context value but never an absent or empty one; the sender predicate with
a wildcard matches even when no identity attribute is populated, and
without a wildcard it matches exactly when one of `senderId`,
`senderE164`, `senderUsername` is present, non-empty and equal to some
listed entry after case-insensitive normalisation. -/
theorem identity_wildcard_sender_matching :
    (∀ allowed : List IdEntry, matchesIdList allowed none = false)
    ∧ (∀ allowed : List IdEntry, matchesIdList allowed (some "") = false)
    ∧ (∀ (allowed : List IdEntry) (s : String),
        allowed.any (fun a => norm a == "*") = true →
        matchesIdList allowed (some s) = (s != ""))
    ∧ (∀ (allowed : List IdEntry) (ctx : KvCacheStabilityContext),
        matchesSenderIdentity allowed ctx = specSenderMatch allowed ctx) := by
  refine ⟨fun _ => rfl, ?_, ?_, ?_⟩
  · intro allowed
    simp [matchesIdList]
  · intro allowed s hw
    by_cases hs : s = ""
    · subst hs
      simp [matchesIdList]
    · have hs' : (s == "") = false := by simpa using hs
      have : (allowed.any fun a => norm a == "*" || norm a == normString s) = true := by
        rw [any_or_split, hw, Bool.true_or]
      simp only [matchesIdList, hs', Bool.false_eq_true, if_false, this]
      simpa using hs
  · intro allowed ctx
    unfold matchesSenderIdentity specSenderMatch
    cases hw : (allowed.any fun a => norm a == "*") with
    | true => rfl
    | false =>
      simp only [Bool.false_eq_true, if_false]
      have hmz : ∀ c : String,
          matchesIdList allowed (some c) =
            (c != "" && allowed.any (fun a => norm a == normString c)) := by
        intro c
        by_cases hc : c = ""
        · subst hc
          simp [matchesIdList]
        · have hc' : (c == "") = false := by simpa using hc
          have hc'' : (c != "") = true := by simpa using hc
          simp only [matchesIdList, hc', Bool.false_eq_true, if_false,
            any_or_split, hw, Bool.false_or, hc'', Bool.true_and]
      set L := [ctx.senderId, ctx.senderE164, ctx.senderUsername].filterMap id
        with hL
      have hfalse : matchesIdList allowed (some "") = false := by
        simp [matchesIdList]
      have hany : (L.filter fun s => s != "").any
            (fun c => matchesIdList allowed (some c)) =
          L.any (fun c => c != "" && allowed.any (fun a => norm a == normString c)) := by
        rw [any_filter_of_false L _ hfalse]
        exact any_congr_on L _ _ (fun c _ => hmz c)
      cases hemp : (L.filter fun s => s != "").isEmpty with
      | true =>
        simp only [if_pos rfl]
        have h0 : (L.filter fun s => s != "").any
            (fun c => matchesIdList allowed (some c)) = false := by
          rw [List.isEmpty_iff.mp hemp]
          rfl
        rw [← hany]
        exact h0.symm
      | false =>
        simp only [Bool.false_eq_true, if_false]
        exact hany

/-- Witness for C7 at concrete inputs: a wildcard matches the present
value `"u1"` but not the empty string, and a wildcard sender predicate
matches the empty context. -/
theorem identity_wildcard_sender_matching_witness :
    matchesIdList [.str "*"] (some "u1") = ("u1" != "") ∧
    matchesIdList [.str "*"] (some "") = false ∧
    matchesSenderIdentity [.str "*"] {} = specSenderMatch [.str "*"] {} :=
  ⟨identity_wildcard_sender_matching.2.2.1 [.str "*"] "u1" (by decide),
   identity_wildcard_sender_matching.2.1 [.str "*"],
   identity_wildcard_sender_matching.2.2.2 [.str "*"] {}⟩

/-! ### Object-field lemmas for the rewriter -/

/-- Writing one key leaves reads of any other key unchanged. -/
theorem getField_setField_ne (fs : List (String × Json)) (k : String) (v : Json)
    (q : String) (h : q ≠ k) : getField (setField fs k v) q = getField fs q := by
  induction fs with
  | nil =>
    have hkq : (k == q) = false := by simp [Ne.symm h]
    simp [setField, getField, hkq]
  | cons p rest ih =>
    by_cases hp : (p.1 == k) = true
    · have hp1 : p.1 = k := by simpa using hp
      have hkq : (k == q) = false := by simp [Ne.symm h]
      have hpq : (p.1 == q) = false := by simp [hp1, Ne.symm h]
      simp [setField, getField, hp, hkq, hpq]
    · have hp' : (p.1 == k) = false := by simpa using hp
      simp only [setField, getField, hp', Bool.false_eq_true, if_false]
      cases hq : (p.1 == q) with
      | true => simp [getField, hq]
      | false => simp [getField, hq, ih]

/-- Reading the key just written. -/
theorem getField_setField_self (fs : List (String × Json)) (k : String) (v : Json) :
    getField (setField fs k v) k = some v := by
  induction fs with
  | nil => simp [setField, getField]
  | cons p rest ih =>
    by_cases hp : (p.1 == k) = true
    · simp [setField, getField, hp]
    · have hp' : (p.1 == k) = false := by simpa using hp
      simp [setField, getField, hp', ih]

/-- Deleting one key leaves reads of any other key unchanged. -/
theorem getField_deleteField_ne (fs : List (String × Json)) (k q : String)
    (h : q ≠ k) : getField (deleteField fs k) q = getField fs q := by
  induction fs with
  | nil => rfl
  | cons p rest ih =>
    by_cases hp : (p.1 == k) = true
    · have hp1 : p.1 = k := by simpa using hp
      have hpq : (p.1 == q) = false := by simp [hp1, Ne.symm h]
      simp [deleteField, getField, hp, hpq, ih]
    · have hp' : (p.1 == k) = false := by simpa using hp
      simp only [deleteField, getField, hp', Bool.false_eq_true, if_false]
      cases hq : (p.1 == q) with
      | true => simp [getField, hq]
      | false => simp [getField, hq, ih]

/-! ### Structural lemmas about the per-entry rewrite step -/

/-- A step that does not count an update passes the entry through
unchanged. -/
theorem processEntry_not_updated (ids : List String) (ph : String) (e : Json)
    (h : (processEntry ids ph e).2 = false) : (processEntry ids ph e).1 = e := by
  unfold processEntry at h ⊢
  cases e with
  | obj topFields =>
    cases hm : getField topFields "message" with
    | none => simp [hm]
    | some mv =>
      cases mv with
      | obj msg =>
        simp only [hm] at h ⊢
        by_cases hc : entryRewriteCondition ids topFields msg = true
        · simp only [hc, if_true] at h ⊢
          by_cases hac : isAlreadyCompacted ph (getField msg "content") = true
          · simp [hac]
          · simp only [hac, Bool.false_eq_true, if_false] at h
            exact absurd h (by simp)
        · have hc' : entryRewriteCondition ids topFields msg = false := by
            simpa using hc
          simp [hc']
      | null => simp [hm]
      | bool b => simp [hm]
      | num n => simp [hm]
      | str s => simp [hm]
      | arr es => simp [hm]
  | null => rfl
  | bool b => rfl
  | num n => rfl
  | str s => rfl
  | arr es => rfl

/-- The lemma: `compactMsg` does not disturb keys other than `content`/`details`. -/
theorem getField_compactMsg_ne (ph : String) (msg : List (String × Json))
    (q : String) (h1 : q ≠ "content") (h2 : q ≠ "details") :
    getField (compactMsg ph msg) q = getField msg q := by
  unfold compactMsg
  cases hc : getField msg "content" with
  | none =>
    rw [getField_deleteField_ne _ _ _ h2, getField_setField_ne _ _ _ _ h1]
  | some v =>
    cases v <;>
      rw [getField_deleteField_ne _ _ _ h2, getField_setField_ne _ _ _ _ h1]

/-- After `compactMsg`, the content is detected as already compacted. -/
theorem isAlreadyCompacted_compactMsg (ph : String) (msg : List (String × Json)) :
    isAlreadyCompacted ph (getField (compactMsg ph msg) "content") = true := by
  unfold compactMsg
  have hcd : ("content" : String) ≠ "details" := by decide
  cases hc : getField msg "content" with
  | none =>
    rw [getField_deleteField_ne _ _ _ hcd, getField_setField_self]
    simp [isAlreadyCompacted]
  | some v =>
    cases v <;>
      · rw [getField_deleteField_ne _ _ _ hcd, getField_setField_self]
        simp [isAlreadyCompacted, fieldIsStr, getField]

/-- The rewrite condition survives `compactMsg` and the message
replacement: it only reads `type`, `role` and `toolCallId`. -/
theorem entryRewriteCondition_compactMsg (ids : List String) (ph : String)
    (topFields msg : List (String × Json))
    (h : entryRewriteCondition ids topFields msg = true) :
    entryRewriteCondition ids
      (setField topFields "message" (.obj (compactMsg ph msg)))
      (compactMsg ph msg) = true := by
  unfold entryRewriteCondition at h ⊢
  rw [Bool.and_eq_true, Bool.and_eq_true] at h
  obtain ⟨⟨h1, h2⟩, h3⟩ := h
  have htype : fieldIsStr
      (setField topFields "message" (.obj (compactMsg ph msg))) "type" "message" =
      fieldIsStr topFields "type" "message" := by
    unfold fieldIsStr
    rw [getField_setField_ne _ _ _ _ (by decide)]
  have hrole : isToolResultMsg (compactMsg ph msg) = isToolResultMsg msg := by
    unfold isToolResultMsg fieldIsStr
    rw [getField_compactMsg_ne _ _ _ (by decide) (by decide),
      getField_compactMsg_ne _ _ _ (by decide) (by decide)]
  have hid : toolCallIdMatches ids (compactMsg ph msg) =
      toolCallIdMatches ids msg := by
    unfold toolCallIdMatches
    rw [getField_compactMsg_ne _ _ _ (by decide) (by decide)]
  rw [htype, hrole, hid, h1, h2, h3]
  rfl

/-- Re-running the per-entry step on its own output never counts a second
update and never modifies the entry further (in particular an entry that
was rewritten to the placeholder is detected as already compacted and is
not double-wrapped). -/
theorem processEntry_idempotent (ids : List String) (ph : String) (e : Json) :
    processEntry ids ph (processEntry ids ph e).1 =
      ((processEntry ids ph e).1, false) := by
  cases hu : (processEntry ids ph e).2 with
  | false =>
    rw [processEntry_not_updated ids ph e hu]
    exact Prod.ext (processEntry_not_updated ids ph e hu) hu
  | true =>
    cases e with
    | obj topFields =>
      cases hm : getField topFields "message" with
      | none => rw [processEntry, hm] at hu; simp at hu
      | some mv =>
        cases mv with
        | obj msg =>
          by_cases hc : entryRewriteCondition ids topFields msg = true
          · by_cases hac : isAlreadyCompacted ph (getField msg "content") = true
            · rw [processEntry, hm] at hu
              simp only [hc, if_true, hac] at hu
              exact Bool.noConfusion hu
            · have he1 : (processEntry ids ph (.obj topFields)).1 =
                  .obj (setField topFields "message" (.obj (compactMsg ph msg))) := by
                rw [processEntry, hm]
                simp only [hc, if_true, hac, Bool.false_eq_true, if_false]
              rw [he1]
              have hm' : getField
                  (setField topFields "message" (.obj (compactMsg ph msg)))
                  "message" = some (.obj (compactMsg ph msg)) :=
                getField_setField_self _ _ _
              rw [processEntry, hm']
              simp only [entryRewriteCondition_compactMsg ids ph topFields msg hc,
                if_true, isAlreadyCompacted_compactMsg ph msg, if_true]
          · rw [processEntry, hm] at hu
            have hc' : entryRewriteCondition ids topFields msg = false := by
              simpa using hc
            simp [hc'] at hu
        | null => rw [processEntry, hm] at hu; simp at hu
        | bool b => rw [processEntry, hm] at hu; simp at hu
        | num n => rw [processEntry, hm] at hu; simp at hu
        | str s => rw [processEntry, hm] at hu; simp at hu
        | arr es => rw [processEntry, hm] at hu; simp at hu
    | null => simp [processEntry] at hu
    | bool b => simp [processEntry] at hu
    | num n => simp [processEntry] at hu
    | str s => simp [processEntry] at hu
    | arr es => simp [processEntry] at hu

/-- Re-running the line loop on its own output performs zero updates and
reproduces the output unchanged, provided the parse oracle round-trips the
serialised form of every entry it produced (which `JSON.parse` does for
`JSON.stringify` output). -/
theorem processLines_idempotent (parse : String → Option Json)
    (ids : List String) (ph : String) (lines : List String)
    (hpr : ∀ line ∈ lines, ∀ e, parse line = some e →
      parse (Json.serialize (processEntry ids ph e).1) =
        some ((processEntry ids ph e).1)) :
    processLines parse ids ph (processLines parse ids ph lines).1 =
      ((processLines parse ids ph lines).1, 0) := by
  induction lines with
  | nil => rfl
  | cons line rest ih =>
    have ihr := ih (fun l hl e he => hpr l (by simp [hl]) e he)
    have hstable : ∀ x : String,
        (if jsTrim x == "" then ([x], 0)
          else match parse x with
            | none => ([x], 0)
            | some e =>
              let step := processEntry ids ph e
              ([step.1.serialize], if step.2 then 1 else 0)) = (([x], 0) : List String × Nat) →
        processLines parse ids ph (x :: (processLines parse ids ph rest).1) =
          (x :: (processLines parse ids ph rest).1, 0) := by
      intro x hx
      rw [processLines, hx, ihr]
      simp
    by_cases hblank : (jsTrim line == "") = true
    · have hline : processLines parse ids ph (line :: rest) =
          (line :: (processLines parse ids ph rest).1,
            (processLines parse ids ph rest).2) := by
        rw [processLines]
        simp only [hblank, if_true]
        simp
      rw [hline]
      exact hstable line (by simp only [hblank, if_true])
    · have hblank' : (jsTrim line == "") = false := by simpa using hblank
      cases hp : parse line with
      | none =>
        have hline : processLines parse ids ph (line :: rest) =
            (line :: (processLines parse ids ph rest).1,
              (processLines parse ids ph rest).2) := by
          rw [processLines]
          simp only [hblank', Bool.false_eq_true, if_false, hp]
          simp
        rw [hline]
        exact hstable line (by simp only [hblank', Bool.false_eq_true, if_false, hp])
      | some e =>
        have hline : processLines parse ids ph (line :: rest) =
            ((processEntry ids ph e).1.serialize ::
                (processLines parse ids ph rest).1,
              (if (processEntry ids ph e).2 then 1 else 0) +
                (processLines parse ids ph rest).2) := by
          rw [processLines]
          simp only [hblank', Bool.false_eq_true, if_false, hp]
          simp
        rw [hline]
        set x := (processEntry ids ph e).1.serialize with hxdef
        have hpx : parse x = some ((processEntry ids ph e).1) :=
          hpr line (by simp) e hp
        refine hstable x ?_
        by_cases hxb : (jsTrim x == "") = true
        · simp only [hxb, if_true]
        · have hxb' : (jsTrim x == "") = false := by simpa using hxb
          simp only [hxb', Bool.false_eq_true, if_false, hpx]
          have hstep := processEntry_idempotent ids ph e
          rw [hstep]
          simp [hxdef]

/-! ### C5 — idempotence of persisted compaction -/

/-- C5: (1) running `persistToolResultCompaction` again, with the same
tool-call ids and a parse oracle that round-trips the serialised entries
it produced, performs zero updates, reports `persisted = false`,
`updatedCount = 0`, and leaves the filesystem untouched; (2) an entry
whose content already equals the placeholder string or the single-element
placeholder-wrapped list is detected as already compacted — it is not
modified and not counted; (3) when zero lines are modified the call
performs no write at all. -/
theorem persist_compaction_idempotent :
    (∀ (parse : String → Option Json) (fs0 : Fs) (sf i1 i2 : String)
        (ids : List String) (ph : String),
      (∀ line ∈ (((fs0 sf).map (·.lines)).getD []), ∀ e, parse line = some e →
        parse (Json.serialize (processEntry ids ph e).1) =
          some ((processEntry ids ph e).1)) →
      (persistToolResultCompaction parse noFaults
          (persistToolResultCompaction parse noFaults fs0 sf i1 ids ph).2.1
          sf i2 ids ph).1 = ⟨false, 0⟩
      ∧ (persistToolResultCompaction parse noFaults
          (persistToolResultCompaction parse noFaults fs0 sf i1 ids ph).2.1
          sf i2 ids ph).2.1 =
        (persistToolResultCompaction parse noFaults fs0 sf i1 ids ph).2.1)
    ∧ (∀ (ids : List String) (ph : String)
        (topFields msg : List (String × Json)),
      getField topFields "message" = some (.obj msg) →
      isAlreadyCompacted ph (getField msg "content") = true →
      processEntry ids ph (.obj topFields) = (.obj topFields, false))
    ∧ (∀ (parse : String → Option Json) (faults : FsFaults) (fs0 : Fs)
        (sf i : String) (ids : List String) (ph : String) (file : FileState),
      faults.readFails = false →
      fs0 sf = some file →
      (processLines parse ids ph file.lines).2 = 0 →
      persistToolResultCompaction parse faults fs0 sf i ids ph =
        (⟨false, 0⟩, fs0, [])) := by
  refine ⟨?_, ?_, ?_⟩
  · intro parse fs0 sf i1 i2 ids ph hpr
    by_cases hids : ids.isEmpty = true
    · constructor <;> simp [persistToolResultCompaction, hids]
    · have hids' : ids.isEmpty = false := by simpa using hids
      cases hf : fs0 sf with
      | none =>
        have h1 : persistToolResultCompaction parse noFaults fs0 sf i1 ids ph =
            (⟨false, 0⟩, fs0, [readWarning]) := by
          simp [persistToolResultCompaction, hids', noFaults, hf]
        rw [h1]
        have h2 : persistToolResultCompaction parse noFaults fs0 sf i2 ids ph =
            (⟨false, 0⟩, fs0, [readWarning]) := by
          simp [persistToolResultCompaction, hids', noFaults, hf]
        rw [h2]
        exact ⟨rfl, rfl⟩
      | some file =>
        have hpr' : ∀ line ∈ file.lines, ∀ e, parse line = some e →
            parse (Json.serialize (processEntry ids ph e).1) =
              some ((processEntry ids ph e).1) := by
          intro line hl e he
          exact hpr line (by rw [hf]; simpa using hl) e he
        cases hn : (processLines parse ids ph file.lines).2 with
        | zero =>
          have h1 : persistToolResultCompaction parse noFaults fs0 sf i1 ids ph =
              (⟨false, 0⟩, fs0, []) := by
            simp [persistToolResultCompaction, hids', noFaults, hf, hn]
          rw [h1]
          have h2 : persistToolResultCompaction parse noFaults fs0 sf i2 ids ph =
              (⟨false, 0⟩, fs0, []) := by
            simp [persistToolResultCompaction, hids', noFaults, hf, hn]
          rw [h2]
          exact ⟨rfl, rfl⟩
        | succ m =>
          have hnz : ((processLines parse ids ph file.lines).2 == 0) = false := by
            simp [hn]
          have hwp : atomicWritePhase noFaults fs0 sf (tmpPathOf sf i1)
              (processLines parse ids ph file.lines).1 =
              .ok ((((fs0.setFile (tmpPathOf sf i1)
                    ⟨(processLines parse ids ph file.lines).1, freshFileMode⟩).setFile
                  (tmpPathOf sf i1)
                  ⟨(processLines parse ids ph file.lines).1, file.mode⟩).removeFile
                (tmpPathOf sf i1)).setFile sf
                ⟨(processLines parse ids ph file.lines).1, file.mode⟩) := by
            simp [atomicWritePhase, noFaults, hf]
          simp only [noFaults] at hwp
          have h1 : persistToolResultCompaction parse noFaults fs0 sf i1 ids ph =
              (⟨true, (processLines parse ids ph file.lines).2⟩,
               (((fs0.setFile (tmpPathOf sf i1)
                    ⟨(processLines parse ids ph file.lines).1, freshFileMode⟩).setFile
                  (tmpPathOf sf i1)
                  ⟨(processLines parse ids ph file.lines).1, file.mode⟩).removeFile
                (tmpPathOf sf i1)).setFile sf
                ⟨(processLines parse ids ph file.lines).1, file.mode⟩, []) := by
            simp only [persistToolResultCompaction, hids', Bool.false_eq_true,
              if_false, noFaults, hf, hnz, hwp]
          rw [h1]
          have hreadback :
              ((((fs0.setFile (tmpPathOf sf i1)
                    ⟨(processLines parse ids ph file.lines).1, freshFileMode⟩).setFile
                  (tmpPathOf sf i1)
                  ⟨(processLines parse ids ph file.lines).1, file.mode⟩).removeFile
                (tmpPathOf sf i1)).setFile sf
                ⟨(processLines parse ids ph file.lines).1, file.mode⟩) sf =
              some ⟨(processLines parse ids ph file.lines).1, file.mode⟩ := by
            simp [Fs.setFile]
          have hn2 : processLines parse ids ph
              (processLines parse ids ph file.lines).1 =
              ((processLines parse ids ph file.lines).1, 0) :=
            processLines_idempotent parse ids ph file.lines hpr'
          have h2 : persistToolResultCompaction parse noFaults
              ((((fs0.setFile (tmpPathOf sf i1)
                    ⟨(processLines parse ids ph file.lines).1, freshFileMode⟩).setFile
                  (tmpPathOf sf i1)
                  ⟨(processLines parse ids ph file.lines).1, file.mode⟩).removeFile
                (tmpPathOf sf i1)).setFile sf
                ⟨(processLines parse ids ph file.lines).1, file.mode⟩)
              sf i2 ids ph =
              (⟨false, 0⟩,
               (((fs0.setFile (tmpPathOf sf i1)
                    ⟨(processLines parse ids ph file.lines).1, freshFileMode⟩).setFile
                  (tmpPathOf sf i1)
                  ⟨(processLines parse ids ph file.lines).1, file.mode⟩).removeFile
                (tmpPathOf sf i1)).setFile sf
                ⟨(processLines parse ids ph file.lines).1, file.mode⟩, []) := by
            simp only [persistToolResultCompaction, hids', Bool.false_eq_true,
              if_false, noFaults, hreadback, hn2]
            rfl
          rw [h2]
          exact ⟨rfl, rfl⟩
  · intro ids ph topFields msg hm hac
    rw [processEntry, hm]
    by_cases hc : entryRewriteCondition ids topFields msg = true
    · simp [hc, hac]
    · have hc' : entryRewriteCondition ids topFields msg = false := by simpa using hc
      simp [hc']
  · intro parse faults fs0 sf i ids ph file hread hf hn
    by_cases hids : ids.isEmpty = true
    · simp [persistToolResultCompaction, hids]
    · have hids' : ids.isEmpty = false := by simpa using hids
      simp [persistToolResultCompaction, hids', hread, hf, hn]

/-- Placeholder string used by the concrete idempotence scenario. -/
def PH5 : String := "[tool result compacted]"

/-- A concrete tool-result entry for the idempotence scenario. -/
def entryC5 : Json :=
  .obj [("type", .str "message"),
        ("message", .obj [("role", .str "toolResult"),
                          ("toolCallId", .str "t1"),
                          ("content", .str "out")])]

/-- The serialised form of `entryC5` — the log's single line. -/
def lineC5 : String := Json.serialize entryC5

/-- The entry after the rewrite step. -/
def entryC5' : Json := (processEntry ["t1"] PH5 entryC5).1

/-- The `JSON.parse` oracle restricted to the two lines this scenario
reads: the original line and its rewritten form (both are exactly what
`JSON.parse` returns on those strings). -/
def parseC5 : String → Option Json := fun s =>
  if s == lineC5 then some entryC5
  else if s == Json.serialize entryC5' then some entryC5'
  else none

/-- The initial filesystem of the scenario: one log with one line. -/
def fsC5 : Fs := fun p => if p == "log" then some ⟨[lineC5], 420⟩ else none

/-- Witness for C5 at the concrete scenario: the second run reports no
persistence and no updates. -/
theorem persist_compaction_idempotent_witness :
    (persistToolResultCompaction parseC5 noFaults
        (persistToolResultCompaction parseC5 noFaults fsC5 "log" "a" ["t1"] PH5).2.1
        "log" "b" ["t1"] PH5).1 = ⟨false, 0⟩ :=
  (persist_compaction_idempotent.1 parseC5 fsC5 "log" "a" "b" ["t1"] PH5
    (by
      intro line hline e he
      have hl0 : (((fsC5 "log").map (·.lines)).getD []) = [lineC5] := rfl
      rw [hl0] at hline
      have hl : line = lineC5 := by simpa using hline
      subst hl
      have hp : parseC5 lineC5 = some entryC5 := by
        show (if (lineC5 == lineC5) = true then some entryC5 else _) = some entryC5
        simp
      rw [hp] at he
      injection he with he'
      subst he'
      show parseC5 (Json.serialize (processEntry ["t1"] PH5 entryC5).1) =
        some ((processEntry ["t1"] PH5 entryC5).1)
      rfl)).1

/-! ### C4 — write-path failures leave the original log untouched -/

/-- The temporary path is never the session file itself (it is strictly
longer). -/
theorem tmpPathOf_ne (sf i : String) : tmpPathOf sf i ≠ sf := by
  intro h
  have hlen := congrArg String.length h
  rw [tmpPathOf, String.length_append, String.length_append,
    String.length_append] at hlen
  have h15 : (".guard-persist-" : String).length = 15 := rfl
  have h4 : (".tmp" : String).length = 4 := rfl
  rw [h15, h4] at hlen
  omega

/-- When the write, the (reachable) chmod, or the rename fails, the write
phase throws, and the filesystem at the throw point differs from the
original at most at the temporary path. -/
theorem atomicWritePhase_error_shape (faults : FsFaults) (fs0 : Fs)
    (sf tmp : String) (out : List String)
    (hfail : faults.writeFails = true ∨
      (faults.statFails = false ∧ (fs0 sf).isSome = true ∧
        faults.chmodFails = true) ∨
      faults.renameFails = true) :
    ∃ fsE, atomicWritePhase faults fs0 sf tmp out = .error fsE ∧
      ∀ q, q ≠ tmp → fsE q = fs0 q := by
  unfold atomicWritePhase
  by_cases hw : faults.writeFails = true
  · rw [hw]
    exact ⟨fs0, rfl, fun q _ => rfl⟩
  · have hw' : faults.writeFails = false := by simpa using hw
    rw [hw']
    simp only [Bool.false_eq_true, if_false]
    have hoff1 : ∀ q, q ≠ tmp → (fs0.setFile tmp ⟨out, freshFileMode⟩) q = fs0 q := by
      intro q hq
      simp [Fs.setFile, hq]
    by_cases hs : faults.statFails = true
    · rw [hs]
      rcases hfail with h1 | h2 | h3
      · exact absurd h1 (by simp [hw'])
      · exact absurd h2.1 (by simp [hs])
      · rw [h3]
        exact ⟨_, rfl, hoff1⟩
    · have hs' : faults.statFails = false := by simpa using hs
      rw [hs']
      simp only [Bool.false_eq_true, if_false]
      cases hf : fs0 sf with
      | none =>
        rcases hfail with h1 | h2 | h3
        · exact absurd h1 (by simp [hw'])
        · rw [hf] at h2; exact absurd h2.2.1 (by simp)
        · rw [h3]
          exact ⟨_, rfl, hoff1⟩
      | some file =>
        simp only [Option.map_some']
        by_cases hc : faults.chmodFails = true
        · rw [hc]
          exact ⟨_, rfl, hoff1⟩
        · have hc' : faults.chmodFails = false := by simpa using hc
          rw [hc']
          simp only [Bool.false_eq_true, if_false]
          rcases hfail with h1 | h2 | h3
          · exact absurd h1 (by simp [hw'])
          · exact absurd h2.2.2 (by simp [hc'])
          · rw [h3]
            refine ⟨_, rfl, ?_⟩
            intro q hq
            simp [Fs.setFile, hq]

/-- C4: any failure while writing the temporary file, copying the
permission bits, or renaming over the original makes
`persistToolResultCompaction` report `persisted = false` with
`updatedCount = 0` and a single warning through the sink, leaves the
original log file untouched, and — when the best-effort unlink itself does
not fail — removes the temporary file; a failing unlink changes none of
the reported results.  (The embedded function is total: every failure is
caught and surfaced as a result, never as an exception.) -/
theorem persist_write_failure_atomic (parse : String → Option Json)
    (faults : FsFaults) (fs0 : Fs) (sf tmpInfix : String)
    (ids : List String) (ph : String) (file : FileState)
    (hids : ids.isEmpty = false)
    (hread : faults.readFails = false)
    (hfile : fs0 sf = some file)
    (hupd : (processLines parse ids ph file.lines).2 ≠ 0)
    (hfail : faults.writeFails = true ∨
      (faults.statFails = false ∧ faults.chmodFails = true) ∨
      faults.renameFails = true) :
    (persistToolResultCompaction parse faults fs0 sf tmpInfix ids ph).1 =
      ⟨false, 0⟩
    ∧ (persistToolResultCompaction parse faults fs0 sf tmpInfix ids ph).2.2 =
      [writeWarning]
    ∧ (persistToolResultCompaction parse faults fs0 sf tmpInfix ids ph).2.1 sf =
      fs0 sf
    ∧ (faults.unlinkFails = false →
      (persistToolResultCompaction parse faults fs0 sf tmpInfix ids ph).2.1
        (tmpPathOf sf tmpInfix) = none) := by
  have hfail' : faults.writeFails = true ∨
      (faults.statFails = false ∧ (fs0 sf).isSome = true ∧
        faults.chmodFails = true) ∨
      faults.renameFails = true := by
    rcases hfail with h1 | h2 | h3
    · exact Or.inl h1
    · exact Or.inr (Or.inl ⟨h2.1, by simp [hfile], h2.2⟩)
    · exact Or.inr (Or.inr h3)
  obtain ⟨fsE, hE, hoff⟩ := atomicWritePhase_error_shape faults fs0 sf
    (tmpPathOf sf tmpInfix) (processLines parse ids ph file.lines).1 hfail'
  have hnz : ((processLines parse ids ph file.lines).2 == 0) = false := by
    simpa using hupd
  have hmain : persistToolResultCompaction parse faults fs0 sf tmpInfix ids ph =
      (⟨false, 0⟩,
        (if faults.unlinkFails then fsE
          else fsE.removeFile (tmpPathOf sf tmpInfix)),
        [writeWarning]) := by
    simp only [persistToolResultCompaction, hids, Bool.false_eq_true, if_false,
      hread, hfile, hnz, hE]
  rw [hmain]
  refine ⟨rfl, rfl, ?_, ?_⟩
  · have hsf : fsE sf = fs0 sf := hoff sf (Ne.symm (tmpPathOf_ne sf tmpInfix))
    by_cases hu : faults.unlinkFails = true
    · simp [hu, hsf]
    · have hu' : faults.unlinkFails = false := by simpa using hu
      have hne : (sf == tmpPathOf sf tmpInfix) = false := by
        simpa using Ne.symm (tmpPathOf_ne sf tmpInfix)
      simp [hu', Fs.removeFile, hne, hsf]
  · intro hu
    simp [hu, Fs.removeFile]

/-- Witness for C4: a failing `writeFile` on the concrete scenario leaves
the log entry unchanged and reports nothing persisted. -/
theorem persist_write_failure_atomic_witness :
    (persistToolResultCompaction parseC5 { writeFails := true } fsC5 "log" "a"
        ["t1"] PH5).1 = ⟨false, 0⟩
    ∧ (persistToolResultCompaction parseC5 { writeFails := true } fsC5 "log" "a"
        ["t1"] PH5).2.1 "log" = fsC5 "log" :=
  ⟨(persist_write_failure_atomic parseC5 { writeFails := true } fsC5 "log" "a"
      ["t1"] PH5 ⟨[lineC5], 420⟩ (by decide) rfl rfl (by decide)
      (Or.inl rfl)).1,
   (persist_write_failure_atomic parseC5 { writeFails := true } fsC5 "log" "a"
      ["t1"] PH5 ⟨[lineC5], 420⟩ (by decide) rfl rfl (by decide)
      (Or.inl rfl)).2.2.1⟩

/-! ### C10 — only marked tool-result message entries are rewritten -/

/-- C10: the rewrite loop changes an entry (or counts an update) only
when the entry's top-level `type` is `"message"`, its `message` is an
object marked as a tool result (role `"toolResult"`, role `"tool"`, or
message type `"toolResult"`), and the message carries a non-empty string
`toolCallId` that is in the requested set; everything else — including
entries whose `toolCallId` is in the set but which lack the markers —
passes through unmodified. -/
theorem rewrite_requires_tool_result_markers (ids : List String) (ph : String)
    (e : Json) (h : processEntry ids ph e ≠ (e, false)) :
    ∃ topFields msg, e = Json.obj topFields ∧
      getField topFields "message" = some (Json.obj msg) ∧
      fieldIsStr topFields "type" "message" = true ∧
      isToolResultMsg msg = true ∧
      ∃ s, getField msg "toolCallId" = some (Json.str s) ∧ s ≠ "" ∧ s ∈ ids := by
  cases e with
  | obj topFields =>
    cases hm : getField topFields "message" with
    | none => exact absurd (by simp [processEntry, hm]) h
    | some mv =>
      cases mv with
      | obj msg =>
        by_cases hc : entryRewriteCondition ids topFields msg = true
        · have hc' := hc
          unfold entryRewriteCondition at hc'
          rw [Bool.and_eq_true, Bool.and_eq_true] at hc'
          obtain ⟨⟨h1, h2⟩, h3⟩ := hc'
          refine ⟨topFields, msg, rfl, hm, h1, h2, ?_⟩
          unfold toolCallIdMatches at h3
          cases hid : getField msg "toolCallId" with
          | none => rw [hid] at h3; exact absurd h3 (by simp)
          | some idv =>
            cases idv with
            | str s =>
              rw [hid] at h3
              rw [Bool.and_eq_true] at h3
              refine ⟨s, rfl, by simpa using h3.1, ?_⟩
              have := h3.2
              simpa [List.contains_iff_exists_mem_beq, beq_iff_eq] using this
            | null => rw [hid] at h3; exact absurd h3 (by simp)
            | bool b => rw [hid] at h3; exact absurd h3 (by simp)
            | num n => rw [hid] at h3; exact absurd h3 (by simp)
            | arr es => rw [hid] at h3; exact absurd h3 (by simp)
            | obj fs2 => rw [hid] at h3; exact absurd h3 (by simp)
        · have hc' : entryRewriteCondition ids topFields msg = false := by
            simpa using hc
          exact absurd (by simp [processEntry, hm, hc']) h
      | null => exact absurd (by simp [processEntry, hm]) h
      | bool b => exact absurd (by simp [processEntry, hm]) h
      | num n => exact absurd (by simp [processEntry, hm]) h
      | str s => exact absurd (by simp [processEntry, hm]) h
      | arr es => exact absurd (by simp [processEntry, hm]) h
  | null => exact absurd rfl h
  | bool b => exact absurd rfl h
  | num n => exact absurd rfl h
  | str s => exact absurd rfl h
  | arr es => exact absurd rfl h

/-! ### C9 — what the rewritten log preserves -/

/-- Top-level property read on an entry value. -/
def jGet (e : Json) (k : String) : Option Json :=
  match e with
  | .obj fields => getField fields k
  | _ => none

/-- Property read through the entry's `message` object. -/
def jMsgGet (e : Json) (k : String) : Option Json :=
  match jGet e "message" with
  | some m => jGet m k
  | none => none

/-- The value-level frame of the rewrite: all top-level fields other than
`message` read the same, and all message fields other than `content` and
`details` read the same. -/
def EntryValueFrame (e eNew : Json) : Prop :=
  (∀ k, k ≠ "message" → jGet eNew k = jGet e k) ∧
  (∀ k, k ≠ "content" → k ≠ "details" → jMsgGet eNew k = jMsgGet e k)

/-- The per-entry step only moves `message.content`/`message.details`. -/
theorem processEntry_frame (ids : List String) (ph : String) (e : Json) :
    EntryValueFrame e (processEntry ids ph e).1 := by
  cases hu : (processEntry ids ph e).2 with
  | false =>
    rw [processEntry_not_updated ids ph e hu]
    exact ⟨fun k _ => rfl, fun k _ _ => rfl⟩
  | true =>
    cases e with
    | obj topFields =>
      cases hm : getField topFields "message" with
      | none => rw [processEntry, hm] at hu; simp at hu
      | some mv =>
        cases mv with
        | obj msg =>
          by_cases hc : entryRewriteCondition ids topFields msg = true
          · by_cases hac : isAlreadyCompacted ph (getField msg "content") = true
            · rw [processEntry, hm] at hu
              simp only [hc, if_true, hac] at hu
              exact Bool.noConfusion hu
            · have he1 : (processEntry ids ph (.obj topFields)).1 =
                  .obj (setField topFields "message" (.obj (compactMsg ph msg))) := by
                rw [processEntry, hm]
                simp only [hc, if_true, hac, Bool.false_eq_true, if_false]
              rw [he1]
              constructor
              · intro k hk
                show getField (setField topFields "message" _) k = getField topFields k
                exact getField_setField_ne _ _ _ _ hk
              · intro k hk1 hk2
                have lhs : jMsgGet
                    (Json.obj (setField topFields "message" (Json.obj (compactMsg ph msg)))) k =
                    getField (compactMsg ph msg) k := by
                  unfold jMsgGet
                  rw [show jGet
                      (Json.obj (setField topFields "message" (Json.obj (compactMsg ph msg))))
                      "message" = some (Json.obj (compactMsg ph msg)) from
                    getField_setField_self _ _ _]
                  rfl
                have rhs : jMsgGet (Json.obj topFields) k = getField msg k := by
                  unfold jMsgGet
                  rw [show jGet (Json.obj topFields) "message" = some (Json.obj msg) from hm]
                  rfl
                rw [lhs, rhs]
                exact getField_compactMsg_ne ph msg k hk1 hk2
          · rw [processEntry, hm] at hu
            have hc' : entryRewriteCondition ids topFields msg = false := by
              simpa using hc
            simp [hc'] at hu
        | null => rw [processEntry, hm] at hu; simp at hu
        | bool b => rw [processEntry, hm] at hu; simp at hu
        | num n => rw [processEntry, hm] at hu; simp at hu
        | str s => rw [processEntry, hm] at hu; simp at hu
        | arr es => rw [processEntry, hm] at hu; simp at hu
    | null => simp [processEntry] at hu
    | bool b => simp [processEntry] at hu
    | num n => simp [processEntry] at hu
    | str s => simp [processEntry] at hu
    | arr es => simp [processEntry] at hu

/-- C9 (amended): the rewritten line list pairs up with the input lines —
blank lines and unparseable lines are passed through byte-identical; a
parseable line is re-serialised in canonical `JSON.stringify` form, its
entry value changed at most at `message.content`/`message.details`, and
when the entry is not a requested tool result (no update counted) its
parsed value is exactly the original.  (Byte identity is guaranteed only
for blank and unparseable lines; a parsed line's bytes may be
re-canonicalised even when its value is untouched.) -/
theorem log_rewrite_value_frame (parse : String → Option Json)
    (ids : List String) (ph : String) (lines : List String) :
    List.Forall₂ (fun line outLine =>
      ((jsTrim line == "") = true → outLine = line) ∧
      ((jsTrim line == "") = false → parse line = none → outLine = line) ∧
      (∀ e, (jsTrim line == "") = false → parse line = some e →
        outLine = Json.serialize (processEntry ids ph e).1 ∧
        EntryValueFrame e (processEntry ids ph e).1 ∧
        ((processEntry ids ph e).2 = false → (processEntry ids ph e).1 = e)))
      lines (processLines parse ids ph lines).1 := by
  induction lines with
  | nil => exact List.Forall₂.nil
  | cons line rest ih =>
    have hshape : ∀ x : List String × Nat,
        processLines parse ids ph (line :: rest) =
          ((if jsTrim line == "" then ([line], 0)
            else match parse line with
              | none => ([line], 0)
              | some e =>
                let step := processEntry ids ph e
                ([step.1.serialize], if step.2 then 1 else 0)).1 ++
              (processLines parse ids ph rest).1, _) := fun _ => rfl
    by_cases hb : (jsTrim line == "") = true
    · have : processLines parse ids ph (line :: rest) =
          (line :: (processLines parse ids ph rest).1,
            0 + (processLines parse ids ph rest).2) := by
        rw [processLines]
        simp only [hb, if_true]
        rfl
      rw [this]
      exact List.Forall₂.cons
        ⟨fun _ => rfl,
         fun hbb _ => absurd hbb (by simp [hb]),
         fun e hbb _ => absurd hbb (by simp [hb])⟩ ih
    · have hb' : (jsTrim line == "") = false := by simpa using hb
      cases hp : parse line with
      | none =>
        have : processLines parse ids ph (line :: rest) =
            (line :: (processLines parse ids ph rest).1,
              0 + (processLines parse ids ph rest).2) := by
          rw [processLines]
          simp only [hb', Bool.false_eq_true, if_false, hp]
          rfl
        rw [this]
        exact List.Forall₂.cons
          ⟨fun _ => rfl,
           fun _ _ => rfl,
           fun e _ hpe => absurd (hp.symm.trans hpe) (by simp)⟩ ih
      | some e =>
        have : processLines parse ids ph (line :: rest) =
            ((processEntry ids ph e).1.serialize ::
                (processLines parse ids ph rest).1,
              (if (processEntry ids ph e).2 then 1 else 0) +
                (processLines parse ids ph rest).2) := by
          rw [processLines]
          simp only [hb', Bool.false_eq_true, if_false, hp]
          rfl
        rw [this]
        refine List.Forall₂.cons
          ⟨fun hbb => absurd hbb (by simp [hb']),
           fun _ hpn => absurd (hp.symm.trans hpn) (by simp),
           fun e2 _ hpe => ?_⟩ ih
        have he2 : e = e2 := Option.some.inj (hp.symm.trans hpe)
        subst he2
        exact ⟨rfl, processEntry_frame ids ph e,
          processEntry_not_updated ids ph e⟩

/-- A log line whose JSON carries a space after the colon (legal JSON,
but not `JSON.stringify`'s canonical spacing). -/
def lineA : String := "\x7b\"type\": \"session\"\x7d"

/-- Embeds `JSON.parse` of `lineA`. -/
def entryA : Json := .obj [("type", .str "session")]

/-- The parse oracle for the two concrete lines of the C9 scenario (both
values are exactly what `JSON.parse` returns on those strings). -/
def parseC9 : String → Option Json := fun s =>
  if s == lineA then some entryA
  else if s == lineC5 then some entryC5
  else none

/-- The C9 scenario's filesystem: a session entry with non-canonical
spacing followed by a matching tool-result line. -/
def fsC9 : Fs := fun p =>
  if p == "log" then some ⟨[lineA, lineC5], 420⟩ else none

/-- C9 counterexample: `entryA` is not a matching tool result and is left
untouched as a value, yet the rewritten log (which is written, since the
other line is updated) does not keep its line byte-identical — the line
is re-serialised without its original spacing. -/
theorem log_rewrite_not_byte_identical_counterexample :
    processEntry ["t1"] PH5 entryA = (entryA, false)
    ∧ (processLines parseC9 ["t1"] PH5 [lineA, lineC5]).1.head? =
      some (Json.serialize entryA)
    ∧ Json.serialize entryA ≠ lineA
    ∧ (persistToolResultCompaction parseC9 noFaults fsC9 "log" "a" ["t1"]
        PH5).1 = ⟨true, 1⟩
    ∧ ((persistToolResultCompaction parseC9 noFaults fsC9 "log" "a" ["t1"]
        PH5).2.1 "log").map (·.lines.head?) =
      some (some (Json.serialize entryA)) :=
  ⟨rfl, by decide, by decide, by decide, by decide⟩

/-- Witness for C9's frame theorem at the concrete scenario: the pairing
holds, so in particular the rewritten log has the same number of lines. -/
theorem log_rewrite_value_frame_witness :
    (processLines parseC9 ["t1"] PH5 [lineA, lineC5]).1.length =
      ([lineA, lineC5] : List String).length :=
  (log_rewrite_value_frame parseC9 ["t1"] PH5 [lineA, lineC5]).length_eq.symm

/-- A concrete rewritable tool-result entry. -/
def entryC10 : Json :=
  .obj [("type", .str "message"),
        ("message", .obj [("role", .str "toolResult"),
                          ("toolCallId", .str "tc1"),
                          ("content", .str "big output")])]

/-- Witness for C10: the concrete entry is rewritten, and the theorem
recovers its markers. -/
theorem rewrite_requires_tool_result_markers_witness :
    ∃ topFields msg, entryC10 = Json.obj topFields ∧
      getField topFields "message" = some (Json.obj msg) ∧
      fieldIsStr topFields "type" "message" = true ∧
      isToolResultMsg msg = true ∧
      ∃ s, getField msg "toolCallId" = some (Json.str s) ∧ s ≠ "" ∧ s ∈ ["tc1"] :=
  rewrite_requires_tool_result_markers ["tc1"] "[placeholder]" entryC10
    (fun heq => by
      have h2 := congrArg Prod.snd heq
      exact absurd h2 (by decide))

end Openclaw
